import Mathlib

/-!
Shallow embedding of the session-reconstruction and statistics core of the
horizon repository (src/services/sessions.ts and src/services/statistics.ts).

Timestamps are modelled as integers: the source stores ISO 8601 strings and
immediately converts them to epoch milliseconds with new Date(...).getTime()
before any comparison or arithmetic, so an Interaction.timestamp here is that
millisecond value. Where the source stores a timestamp back as a string
(Session.start, Session.end via toISOString()), the embedding keeps the
millisecond value; the conversion is injective so nothing is lost.

JavaScript Math.round rounds half toward positive infinity; jsRound models it
on exact rationals. The source's floating-point arithmetic is modelled with
exact rational arithmetic.
-/

/-- Rounding as performed by JavaScript Math.round: halves round toward
positive infinity. -/
def jsRound (q : ℚ) : ℤ := ⌊q + 1/2⌋

/-- Rounding to one decimal place, as the source writes it:
Math.round(x * 10) / 10. -/
def round1 (q : ℚ) : ℚ := (jsRound (q * 10) : ℚ) / 10

/-- Event types of an interaction, from the EventType union in types.ts. -/
inductive EventType where
  | promptStart
  | responseEnd
  | sessionEnd
deriving DecidableEq, Repr

/-- An interaction record, from the Interaction interface in types.ts.
The optional database fields id and created_at play no role in the core
algorithms and are omitted. -/
structure Interaction where
  project : String
  timestamp : ℤ
  machine : String
  agent : String
  session_id : String
  event_type : EventType
deriving DecidableEq, Repr

/-- A derived session, from the Session interface in types.ts. The field end
is null (none) exactly when the session is judged active. -/
structure Session where
  session_id : String
  project : String
  start : ℤ
  «end» : Option ℤ
  span_minutes : ℤ
  active_minutes : ℚ
  machine : String
  agent : String
  interaction_count : ℕ
  explicit_end : Bool
deriving DecidableEq, Repr

/-- Default duration in minutes for unpaired prompt-start events
(DEFAULT_DURATION_MINUTES in sessions.ts). -/
def DEFAULT_DURATION_MINUTES : ℚ := 5

/-- Loop of calculateActiveTime in sessions.ts: walks the events, keeping the
running total in minutes and the FIFO queue of not-yet-paired prompt-start
events (push at the back, shift from the front). After the last event, every
prompt-start still queued contributes the default duration. -/
def activeGo : List Interaction → ℚ → List Interaction → ℚ
  | [], total, queue => total + DEFAULT_DURATION_MINUTES * queue.length
  | e :: rest, total, queue =>
    if e.event_type = EventType.promptStart then
      activeGo rest total (queue ++ [e])
    else if e.event_type = EventType.responseEnd then
      match queue with
      | [] => activeGo rest total []
      | promptStart :: qs =>
        activeGo rest
          (total + max 0 ((e.timestamp - promptStart.timestamp : ℚ) / 60000))
          qs
    else
      activeGo rest total queue

/-- calculateActiveTime from sessions.ts: total active minutes from paired
prompt-start and response-end events, rounded to one decimal place. -/
def calculateActiveTime (events : List Interaction) : ℚ :=
  round1 (activeGo events 0 [])

/-- Helper to build a prompt-start interaction at a given timestamp. -/
def mkPrompt (t : ℤ) : Interaction :=
  { project := "p", timestamp := t, machine := "m", agent := "a",
    session_id := "s", event_type := EventType.promptStart }

/-- Helper to build a response-end interaction at a given timestamp. -/
def mkResponse (t : ℤ) : Interaction :=
  { project := "p", timestamp := t, machine := "m", agent := "a",
    session_id := "s", event_type := EventType.responseEnd }

/-- Helper to build a session-end interaction at a given timestamp. -/
def mkSessionEnd (t : ℤ) : Interaction :=
  { project := "p", timestamp := t, machine := "m", agent := "a",
    session_id := "s", event_type := EventType.sessionEnd }

/-!
JavaScript Array.prototype.sort with a numeric comparator is a stable sort;
with a comparator of the form (a, b) => key(b) - key(a) or string comparison
the resulting list is the unique stable sort for the corresponding total
preorder. List.insertionSort with the matching non-strict relation is exactly
that stable sort, so it models every sort call of the source.
-/

/-- Comparator of the per-group event sort in calculateSessions:
(a, b) => getTime(a) - getTime(b). -/
def eventLe (a b : Interaction) : Prop := a.timestamp ≤ b.timestamp

instance : DecidableRel eventLe := fun a b =>
  inferInstanceAs (Decidable (a.timestamp ≤ b.timestamp))

/-- Stable sort of a session's events by timestamp (requirement 2.7). -/
def sortEventsByTimestamp (events : List Interaction) : List Interaction :=
  List.insertionSort eventLe events

/-- Comparator of the final session sort in calculateSessions:
(a, b) => getTime(b.start) - getTime(a.start), start time descending. -/
def sessionStartDesc (a b : Session) : Prop := b.start ≤ a.start

instance : DecidableRel sessionStartDesc := fun a b =>
  inferInstanceAs (Decidable (b.start ≤ a.start))

/-- Keys of a JavaScript Map (or elements of a Set) that is populated by a
left-to-right pass over a list: each key in order of first occurrence. -/
def insertionOrderKeys {α : Type} [DecidableEq α] (l : List α) : List α :=
  l.foldl (fun acc x => if x ∈ acc then acc else acc ++ [x]) []

/-- Keys of the session groups Map of calculateSessions, in insertion order. -/
def sessionIds (interactions : List Interaction) : List String :=
  insertionOrderKeys (interactions.map (fun e => e.session_id))

/-- Value of the session groups Map of calculateSessions at one key: the
interactions with that session_id, in arrival order. -/
def sessionGroup (interactions : List Interaction) (sid : String) :
    List Interaction :=
  interactions.filter (fun e => e.session_id == sid)

/-- deriveSession from sessions.ts. The source throws on an empty event group;
that is modelled as none. Events are expected already sorted by timestamp, as
the only caller guarantees. -/
def deriveSession (sessionId : String) (events : List Interaction) :
    Option Session :=
  match events, events.getLast? with
  | firstEvent :: _, some lastEvent =>
    let hasSessionEnd := events.any (fun e => e.event_type == EventType.sessionEnd)
    let lastPromptStart :=
      events.reverse.find? (fun e => e.event_type == EventType.promptStart)
    let hasMatchingResponseEnd :=
      match lastPromptStart with
      | some lp =>
        events.any (fun e =>
          e.event_type == EventType.responseEnd && lp.timestamp < e.timestamp)
      | none => true
    let isActive := !hasSessionEnd && !hasMatchingResponseEnd
    let startTime := firstEvent.timestamp
    let endTime : Option ℤ := if isActive then none else some lastEvent.timestamp
    let spanMinutes :=
      match endTime with
      | some e => jsRound ((e - startTime : ℚ) / 60000)
      | none => jsRound ((lastEvent.timestamp - startTime : ℚ) / 60000)
    some
      { session_id := sessionId
        project := firstEvent.project
        start := firstEvent.timestamp
        «end» := endTime
        span_minutes := spanMinutes
        active_minutes := calculateActiveTime events
        machine := firstEvent.machine
        agent := firstEvent.agent
        interaction_count :=
          (events.filter (fun e => e.event_type == EventType.promptStart)).length
        explicit_end := hasSessionEnd }
  | _, _ => none

/-- calculateSessions from sessions.ts: group by session_id (Map insertion
order), sort each group by timestamp, derive a session per group, and sort the
sessions by start time descending. The source's early return for an empty
input coincides with the general path. -/
def calculateSessions (interactions : List Interaction) : List Session :=
  List.insertionSort sessionStartDesc
    ((sessionIds interactions).filterMap (fun sid =>
      deriveSession sid (sortEventsByTimestamp (sessionGroup interactions sid))))

/-- Project roll-up entry, from the ProjectSummary interface in types.ts. -/
structure ProjectSummary where
  name : String
  hours : ℚ
  sessions : ℕ
deriving DecidableEq, Repr

/-- Agent roll-up entry, from the AgentSummary interface in types.ts. -/
structure AgentSummary where
  name : String
  hours : ℚ
  percentage : ℤ
deriving DecidableEq, Repr

/-- Machine roll-up entry, from the MachineSummary interface in types.ts. -/
structure MachineSummary where
  name : String
  hours : ℚ
  percentage : ℤ
deriving DecidableEq, Repr

/-- Agent-to-projects roll-up entry, from the AgentProjectSummary interface in
types.ts. -/
structure AgentProjectSummary where
  agent : String
  projects : List String
  hours : ℚ
deriving DecidableEq, Repr

/-- One day of the weekly breakdown, from the DailyBreakdown interface in
types.ts. The date field holds the day number whose ISO date string the source
stores (milliseconds since epoch divided by one day, floored). -/
structure DailyBreakdown where
  date : ℤ
  hours : ℚ
  sessions : ℕ
  projects : List ProjectSummary
deriving DecidableEq, Repr

/-- Weekly statistics, from the WeeklyStats interface in types.ts; the
comparison object is flattened to its only field vs_last_week. -/
structure WeeklyStats where
  total_hours : ℚ
  total_sessions : ℕ
  streak_days : ℕ
  daily_breakdown : List DailyBreakdown
  projects : List ProjectSummary
  agents : List AgentSummary
  machines : List MachineSummary
  agent_projects : List AgentProjectSummary
  vs_last_week : ℚ
deriving DecidableEq, Repr

/-- Milliseconds per day. -/
def MS_PER_DAY : ℤ := 86400000

/-- Local calendar day of a UTC millisecond timestamp under a timezone offset
in minutes: the source forms new Date(ts + offset * 60000) and takes
toISOString().split("T")[0]; two timestamps get the same date string exactly
when the floored day number below agrees. -/
def localDay (ts offset : ℤ) : ℤ :=
  Int.fdiv (ts + offset * 60000) MS_PER_DAY

/-- Descending-hours comparator of calculateProjectBreakdown. -/
def projectHoursDesc (a b : ProjectSummary) : Prop := b.hours ≤ a.hours

instance : DecidableRel projectHoursDesc := fun a b =>
  inferInstanceAs (Decidable (b.hours ≤ a.hours))

/-- calculateProjectBreakdown from statistics.ts: group sessions by project
(Map insertion order), sum hours and count sessions, sort hours descending. -/
def calculateProjectBreakdown (sessions : List Session) : List ProjectSummary :=
  List.insertionSort projectHoursDesc
    ((insertionOrderKeys (sessions.map (fun s => s.project))).map (fun name =>
      let rows := sessions.filter (fun s => s.project == name)
      { name := name
        hours := round1 ((rows.map (fun s => s.active_minutes / 60)).sum)
        sessions := rows.length }))

/-- Descending-hours comparator of calculateAgentBreakdown. -/
def agentHoursDesc (a b : AgentSummary) : Prop := b.hours ≤ a.hours

instance : DecidableRel agentHoursDesc := fun a b =>
  inferInstanceAs (Decidable (b.hours ≤ a.hours))

/-- calculateAgentBreakdown from statistics.ts: per agent, the exact hour sum
is accumulated, then rounded for the hours field; the percentage is rounded
from the unrounded sum against the (already rounded) weekly total. -/
def calculateAgentBreakdown (sessions : List Session) (totalHours : ℚ) :
    List AgentSummary :=
  List.insertionSort agentHoursDesc
    ((insertionOrderKeys (sessions.map (fun s => s.agent))).map (fun name =>
      let hoursSum :=
        ((sessions.filter (fun s => s.agent == name)).map
          (fun s => s.active_minutes / 60)).sum
      { name := name
        hours := round1 hoursSum
        percentage := if 0 < totalHours then jsRound (hoursSum / totalHours * 100) else 0 }))

/-- Descending-hours comparator of calculateMachineBreakdown. -/
def machineHoursDesc (a b : MachineSummary) : Prop := b.hours ≤ a.hours

instance : DecidableRel machineHoursDesc := fun a b =>
  inferInstanceAs (Decidable (b.hours ≤ a.hours))

/-- calculateMachineBreakdown from statistics.ts, the machine analogue of the
agent breakdown. -/
def calculateMachineBreakdown (sessions : List Session) (totalHours : ℚ) :
    List MachineSummary :=
  List.insertionSort machineHoursDesc
    ((insertionOrderKeys (sessions.map (fun s => s.machine))).map (fun name =>
      let hoursSum :=
        ((sessions.filter (fun s => s.machine == name)).map
          (fun s => s.active_minutes / 60)).sum
      { name := name
        hours := round1 hoursSum
        percentage := if 0 < totalHours then jsRound (hoursSum / totalHours * 100) else 0 }))

/-- Descending-hours comparator of calculateAgentProjectBreakdown. -/
def apsHoursDesc (a b : AgentProjectSummary) : Prop := b.hours ≤ a.hours

instance : DecidableRel apsHoursDesc := fun a b =>
  inferInstanceAs (Decidable (b.hours ≤ a.hours))

/-- calculateAgentProjectBreakdown from statistics.ts: per agent (Map
insertion order), the Set of project names of that agent's sessions, listed
alphabetically (Array.from(set).sort()), with the agent's minutes summed and
converted to rounded hours; agents sorted by hours descending. -/
def calculateAgentProjectBreakdown (sessions : List Session) :
    List AgentProjectSummary :=
  List.insertionSort apsHoursDesc
    ((insertionOrderKeys (sessions.map (fun s => s.agent))).map (fun agent =>
      let rows := sessions.filter (fun s => s.agent == agent)
      { agent := agent
        projects :=
          List.insertionSort (fun a b : String => a ≤ b)
            (insertionOrderKeys (rows.map (fun s => s.project)))
        hours := round1 ((rows.map (fun s => s.active_minutes)).sum / 60) }))

/-- calculateDailyBreakdown from statistics.ts: for each of the 7 days from
weekStart, the sessions whose start's local day equals that day, with hour
sum, session count and per-project breakdown. -/
def calculateDailyBreakdown (sessions : List Session) (weekStart tz : ℤ) :
    List DailyBreakdown :=
  (List.range 7).map (fun i =>
    let dayDate := Int.fdiv (weekStart + i * MS_PER_DAY) MS_PER_DAY
    let daySessions := sessions.filter (fun s => localDay s.start tz == dayDate)
    { date := dayDate
      hours := round1 ((daySessions.map (fun s => s.active_minutes)).sum / 60)
      sessions := daySessions.length
      projects := calculateProjectBreakdown daySessions })

/-- Loop of calculateStreak in statistics.ts: i counts the days walked back
from today, fuel enforces the source's bound of 365 loop iterations. A day
with activity increments the streak; a missing day stops the walk unless it is
the very first day tested (today). -/
def streakGo (days : List ℤ) (todayDay : ℤ) : ℕ → ℕ → ℕ → ℕ
  | 0, _, streak => streak
  | fuel + 1, i, streak =>
    if (todayDay - i) ∈ days then streakGo days todayDay fuel (i + 1) (streak + 1)
    else if 0 < i then streak
    else streakGo days todayDay fuel (i + 1) streak

/-- calculateStreak from statistics.ts. The source reads the current instant
from the ambient clock (new Date()); the embedding takes that instant as the
explicit parameter now. The Set of ISO date strings with activity is modelled
as the list of local day numbers of the interactions. -/
def calculateStreak (interactions : List Interaction) (tz now : ℤ) : ℕ :=
  if interactions.isEmpty then 0
  else
    streakGo (interactions.map (fun e => localDay e.timestamp tz))
      (localDay now tz) 365 0 0

/-- Prompt-start event at timestamp 0 in session sa, used as a concrete
input. -/
def cexA : Interaction :=
  { project := "p", timestamp := 0, machine := "m", agent := "a",
    session_id := "sa", event_type := EventType.promptStart }

/-- Prompt-start event at the same timestamp 0 in a different session sb,
used as a concrete input. -/
def cexB : Interaction :=
  { project := "p", timestamp := 0, machine := "m", agent := "a",
    session_id := "sb", event_type := EventType.promptStart }

instance : IsTotal Interaction eventLe :=
  ⟨fun a b => le_total a.timestamp b.timestamp⟩

instance : IsTrans Interaction eventLe :=
  ⟨fun _ _ _ h1 h2 => le_trans h1 h2⟩

instance : IsTotal Session sessionStartDesc :=
  ⟨fun a b => le_total b.start a.start⟩

instance : IsTrans Session sessionStartDesc :=
  ⟨fun _ _ _ h1 h2 => le_trans h2 h1⟩

instance : IsTotal AgentProjectSummary apsHoursDesc :=
  ⟨fun a b => le_total b.hours a.hours⟩

instance : IsTrans AgentProjectSummary apsHoursDesc :=
  ⟨fun _ _ _ h1 h2 => le_trans h2 h1⟩

/-- calculateWeeklyStats from statistics.ts. weekStart is the millisecond
value of the Date argument; now models the ambient clock read inside the
streak calculation. -/
def calculateWeeklyStats (interactions : List Interaction)
    (weekStart tz now : ℤ) : WeeklyStats :=
  let sessions := calculateSessions interactions
  let totalMinutes := (sessions.map (fun s => s.active_minutes)).sum
  let totalHours := round1 (totalMinutes / 60)
  { total_hours := totalHours
    total_sessions := sessions.length
    streak_days := calculateStreak interactions tz now
    daily_breakdown := calculateDailyBreakdown sessions weekStart tz
    projects := calculateProjectBreakdown sessions
    agents := calculateAgentBreakdown sessions totalHours
    machines := calculateMachineBreakdown sessions totalHours
    agent_projects := calculateAgentProjectBreakdown sessions
    vs_last_week := 0 }

/-!
General lemmas about the embedded operations, shared by the claim theorems.
-/

/-- jsRound is the identity on integers. -/
theorem jsRound_intCast (n : ℤ) : jsRound (n : ℚ) = n := by
  rw [jsRound, add_comm, Int.floor_add_int]
  norm_num

/-- round1 is the identity on integers. -/
theorem round1_intCast (n : ℤ) : round1 (n : ℚ) = n := by
  have h : ((n : ℚ)) * 10 = ((n * 10 : ℤ) : ℚ) := by push_cast; ring
  rw [round1, h, jsRound_intCast]
  push_cast
  ring

/-- round1 preserves nonnegativity. -/
theorem round1_nonneg {q : ℚ} (h : 0 ≤ q) : 0 ≤ round1 q := by
  rw [round1]
  have h1 : (0 : ℤ) ≤ jsRound (q * 10) := by
    rw [jsRound, Int.le_floor]
    push_cast
    nlinarith
  positivity

/-- round1 commutes with adding an integer. -/
theorem round1_add_int (q : ℚ) (n : ℤ) : round1 (q + n) = round1 q + n := by
  rw [round1, round1, jsRound, jsRound]
  have h : (q + n) * 10 + 1/2 = (q * 10 + 1/2) + ((10 * n : ℤ) : ℚ) := by
    push_cast
    ring
  rw [h, Int.floor_add_int]
  push_cast
  ring

/-- The pairing loop never drives a nonnegative running total negative. -/
theorem activeGo_nonneg (events : List Interaction) :
    ∀ total queue, 0 ≤ total → 0 ≤ activeGo events total queue := by
  induction events with
  | nil =>
    intro total queue h
    simp only [activeGo]
    have : (0:ℚ) ≤ DEFAULT_DURATION_MINUTES * queue.length := by
      rw [DEFAULT_DURATION_MINUTES]; positivity
    linarith
  | cons e rest ih =>
    intro total queue h
    simp only [activeGo]
    split_ifs with h1 h2
    · exact ih total (queue ++ [e]) h
    · cases queue with
      | nil => exact ih total [] h
      | cons p qs =>
        exact ih _ qs (add_nonneg h (le_max_left 0 _))
    · exact ih total queue h

/-- Total active time is never negative. -/
theorem calculateActiveTime_nonneg (events : List Interaction) :
    0 ≤ calculateActiveTime events :=
  round1_nonneg (activeGo_nonneg events 0 [] le_rfl)

/-- A response-end reaching an empty prompt queue is skipped: the loop
continues on the remaining events with the same state. -/
theorem activeGo_orphan (r : Interaction) (rest : List Interaction)
    (h : r.event_type = EventType.responseEnd) :
    ∀ total, activeGo (r :: rest) total [] = activeGo rest total [] := by
  intro total
  simp [activeGo, h]

/-- With no prompt-start at all, the loop accumulates nothing. -/
theorem activeGo_no_prompt (events : List Interaction)
    (h : ∀ e ∈ events, e.event_type ≠ EventType.promptStart) :
    ∀ total, activeGo events total [] = total := by
  induction events with
  | nil => intro total; simp [activeGo]
  | cons e rest ih =>
    intro total
    have hne := h e (List.mem_cons_self e rest)
    have hrest := fun x hx => h x (List.mem_cons_of_mem e hx)
    simp only [activeGo, if_neg hne]
    split_ifs with h2
    · exact ih hrest total
    · exact ih hrest total

/-- With no response-end at all, every prompt-start stays queued and the
total is the default duration once per queued prompt. -/
theorem activeGo_no_response (events : List Interaction)
    (h : ∀ e ∈ events, e.event_type ≠ EventType.responseEnd) :
    ∀ total queue, activeGo events total queue =
      total + DEFAULT_DURATION_MINUTES *
        (queue.length +
          (events.filter (fun e => e.event_type == EventType.promptStart)).length) := by
  induction events with
  | nil => intro total queue; simp [activeGo]
  | cons e rest ih =>
    intro total queue
    have hne := h e (List.mem_cons_self e rest)
    have hrest := fun x hx => h x (List.mem_cons_of_mem e hx)
    by_cases h1 : e.event_type = EventType.promptStart
    · rw [show activeGo (e :: rest) total queue = activeGo rest total (queue ++ [e]) by
        simp only [activeGo, if_pos h1]]
      rw [ih hrest total (queue ++ [e])]
      rw [List.filter_cons_of_pos (by simp [h1])]
      simp only [List.length_append, List.length_cons, List.length_nil]
      push_cast
      ring
    · rw [show activeGo (e :: rest) total queue = activeGo rest total queue by
        simp only [activeGo, if_neg h1, if_neg hne]]
      rw [ih hrest total queue]
      rw [List.filter_cons_of_neg (by simp [h1])]

/-- Trailing prompt-start events never pair: each one adds exactly the
default duration to the loop result. -/
theorem activeGo_append_prompts (ps : List Interaction)
    (hps : ∀ e ∈ ps, e.event_type = EventType.promptStart) :
    ∀ (events : List Interaction) (total : ℚ) (queue : List Interaction),
      activeGo (events ++ ps) total queue =
        activeGo events total queue + DEFAULT_DURATION_MINUTES * ps.length := by
  intro events
  induction events with
  | nil =>
    intro total queue
    rw [List.nil_append,
      activeGo_no_response ps (fun e he => by rw [hps e he]; decide) total queue,
      List.filter_eq_self.mpr (fun e he => by simp [hps e he])]
    simp only [activeGo]
    ring
  | cons e rest ih =>
    intro total queue
    simp only [List.cons_append, activeGo]
    split_ifs with h1 h2
    · exact ih total (queue ++ [e])
    · cases queue with
      | nil => exact ih total []
      | cons p qs => exact ih _ qs
    · exact ih total queue

/-- The last element of a nonempty list, in Option form. -/
theorem getLast?_cons_eq_getLast (f : Interaction) (rest : List Interaction) :
    (f :: rest).getLast? = some ((f :: rest).getLast (by simp)) :=
  List.getLast?_eq_getLast _ _

/-- deriveSession succeeds on every nonempty event group. -/
theorem deriveSession_cons_exists (sid : String) (f : Interaction)
    (rest : List Interaction) : ∃ s, deriveSession sid (f :: rest) = some s := by
  unfold deriveSession
  rw [getLast?_cons_eq_getLast]
  exact ⟨_, rfl⟩

/-- The active minutes of a derived session are the calculated active time of
its event group. -/
theorem deriveSession_active_minutes (sid : String) (events : List Interaction)
    (s : Session) (h : deriveSession sid events = some s) :
    s.active_minutes = calculateActiveTime events := by
  cases events with
  | nil => simp [deriveSession] at h
  | cons f rest =>
    unfold deriveSession at h
    rw [getLast?_cons_eq_getLast] at h
    injection h with h
    subst h
    rfl

/-- A derived session carries the session id it was derived for. -/
theorem deriveSession_session_id (sid : String) (events : List Interaction)
    (s : Session) (h : deriveSession sid events = some s) : s.session_id = sid := by
  cases events with
  | nil => simp [deriveSession] at h
  | cons f rest =>
    unfold deriveSession at h
    rw [getLast?_cons_eq_getLast] at h
    injection h with h
    subst h
    rfl

/-- A derived session starts at the timestamp of the first event of its
group. -/
theorem deriveSession_start (sid : String) (events : List Interaction)
    (s : Session) (h : deriveSession sid events = some s) :
    ∃ f rest, events = f :: rest ∧ s.start = f.timestamp := by
  cases events with
  | nil => simp [deriveSession] at h
  | cons f rest =>
    refine ⟨f, rest, rfl, ?_⟩
    unfold deriveSession at h
    rw [getLast?_cons_eq_getLast] at h
    injection h with h
    subst h
    rfl

/-- Two sorted permutations of each other with pairwise distinct keys are
equal: the stable sort of a multiset with distinct keys is unique. -/
theorem sorted_perm_eq_of_key_nodup {α β : Type} (key : α → β) (r : α → α → Prop)
    (anti : ∀ a b, r a b → r b a → key a = key b) :
    ∀ (l₁ l₂ : List α), l₁.Pairwise r → l₂.Pairwise r → l₁.Perm l₂ →
      (l₁.map key).Nodup → l₁ = l₂ := by
  intro l₁
  induction l₁ with
  | nil =>
    intro l₂ _ _ hp _
    exact (List.perm_nil.mp hp.symm).symm
  | cons a t ih =>
    intro l₂ h₁ h₂ hp hn
    cases l₂ with
    | nil => exact absurd (List.perm_nil.mp hp) (by simp)
    | cons b t₂ =>
      rw [List.map_cons, List.nodup_cons] at hn
      have hab : a = b := by
        rcases List.mem_cons.mp (hp.subset (List.mem_cons_self a t)) with h | hat₂
        · exact h
        · rcases List.mem_cons.mp (hp.symm.subset (List.mem_cons_self b t₂)) with h | hbt
          · exact h.symm
          · have hrab : r a b := (List.pairwise_cons.mp h₁).1 b hbt
            have hrba : r b a := (List.pairwise_cons.mp h₂).1 a hat₂
            have hk : key a = key b := anti a b hrab hrba
            exact absurd (hk ▸ List.mem_map_of_mem key hbt) hn.1
      subst hab
      rw [ih t₂ (List.pairwise_cons.mp h₁).2 (List.pairwise_cons.mp h₂).2
        hp.cons_inv hn.2]

/-- Membership in the insertion-order key fold, generalized over the
accumulator. -/
theorem insertionOrderKeys_go_mem {α : Type} [DecidableEq α] :
    ∀ (l acc : List α) (x : α),
      (x ∈ l.foldl (fun acc y => if y ∈ acc then acc else acc ++ [y]) acc) ↔
        x ∈ acc ∨ x ∈ l := by
  intro l
  induction l with
  | nil => simp
  | cons y t ih =>
    intro acc x
    simp only [List.foldl_cons]
    by_cases h : y ∈ acc
    · rw [if_pos h, ih]
      constructor
      · rintro (h1 | h2)
        · exact Or.inl h1
        · exact Or.inr (List.mem_cons_of_mem y h2)
      · rintro (h1 | h2)
        · exact Or.inl h1
        · rcases List.mem_cons.mp h2 with rfl | h3
          · exact Or.inl h
          · exact Or.inr h3
    · rw [if_neg h, ih]
      simp only [List.mem_append, List.mem_cons, List.mem_singleton]
      tauto

/-- The key list of a Map built over l holds exactly the elements of l. -/
theorem mem_insertionOrderKeys {α : Type} [DecidableEq α] (l : List α) (x : α) :
    x ∈ insertionOrderKeys l ↔ x ∈ l := by
  rw [insertionOrderKeys, insertionOrderKeys_go_mem]
  simp

/-- The insertion-order key fold keeps the accumulator duplicate-free. -/
theorem insertionOrderKeys_go_nodup {α : Type} [DecidableEq α] :
    ∀ (l acc : List α), acc.Nodup →
      (l.foldl (fun acc y => if y ∈ acc then acc else acc ++ [y]) acc).Nodup := by
  intro l
  induction l with
  | nil => intro acc h; simpa using h
  | cons y t ih =>
    intro acc h
    simp only [List.foldl_cons]
    by_cases hy : y ∈ acc
    · rw [if_pos hy]; exact ih acc h
    · rw [if_neg hy]
      refine ih _ ?_
      simp [List.nodup_append, h, hy]

/-- Map keys are duplicate-free. -/
theorem nodup_insertionOrderKeys {α : Type} [DecidableEq α] (l : List α) :
    (insertionOrderKeys l).Nodup :=
  insertionOrderKeys_go_nodup l [] List.nodup_nil

/-- The session id list is duplicate-free. -/
theorem sessionIds_nodup (l : List Interaction) : (sessionIds l).Nodup :=
  nodup_insertionOrderKeys _

/-- The session id list holds exactly the session ids of the input. -/
theorem mem_sessionIds (l : List Interaction) (sid : String) :
    sid ∈ sessionIds l ↔ sid ∈ l.map (fun e => e.session_id) :=
  mem_insertionOrderKeys _ sid

/-- Membership in a session group. -/
theorem mem_sessionGroup (l : List Interaction) (sid : String) (e : Interaction) :
    e ∈ sessionGroup l sid ↔ e ∈ l ∧ e.session_id = sid := by
  simp [sessionGroup, List.mem_filter]

/-- The event sort yields a list ordered by timestamp. -/
theorem sortEventsByTimestamp_pairwise (l : List Interaction) :
    (sortEventsByTimestamp l).Pairwise eventLe :=
  List.sorted_insertionSort eventLe l

/-- The event sort permutes its input. -/
theorem sortEventsByTimestamp_perm (l : List Interaction) :
    (sortEventsByTimestamp l).Perm l :=
  List.perm_insertionSort eventLe l

/-- Under pairwise distinct timestamps, the sorted event group of a session
is the same for any permutation of the input. -/
theorem sortedGroup_eq (l₁ l₂ : List Interaction) (hperm : l₁.Perm l₂)
    (hnd : (l₁.map (fun e => e.timestamp)).Nodup) (sid : String) :
    sortEventsByTimestamp (sessionGroup l₁ sid) =
      sortEventsByTimestamp (sessionGroup l₂ sid) := by
  have hg : (sessionGroup l₁ sid).Perm (sessionGroup l₂ sid) :=
    hperm.filter _
  have hkeys : ((sortEventsByTimestamp (sessionGroup l₁ sid)).map
      (fun e => e.timestamp)).Nodup := by
    have h1 : ((sessionGroup l₁ sid).map (fun e => e.timestamp)).Nodup :=
      ((List.filter_sublist l₁).map _).nodup hnd
    exact (((sortEventsByTimestamp_perm _).map _).nodup_iff).mpr h1
  exact sorted_perm_eq_of_key_nodup (fun e => e.timestamp) eventLe
    (fun a b h1 h2 => le_antisymm h1 h2) _ _
    (sortEventsByTimestamp_pairwise _) (sortEventsByTimestamp_pairwise _)
    (((sortEventsByTimestamp_perm _).trans hg).trans
      (sortEventsByTimestamp_perm _).symm)
    hkeys

/-- The start of a session derived from a sorted group is the timestamp of
one of the input events carrying that session id. -/
theorem deriveSession_start_mem (l : List Interaction) (sid : String) (s : Session)
    (h : deriveSession sid (sortEventsByTimestamp (sessionGroup l sid)) = some s) :
    ∃ e ∈ l, e.session_id = sid ∧ s.start = e.timestamp := by
  obtain ⟨f, rest, hg, hstart⟩ := deriveSession_start sid _ s h
  have hfmem : f ∈ sortEventsByTimestamp (sessionGroup l sid) :=
    hg ▸ List.mem_cons_self f rest
  obtain ⟨hfl, hfsid⟩ :=
    (mem_sessionGroup l sid f).mp ((sortEventsByTimestamp_perm _).subset hfmem)
  exact ⟨f, hfl, hfsid, hstart⟩

/-- Mapping the session id over the derived sessions gives back the ids when
every id yields a session. -/
theorem map_session_id_filterMap (f : String → Option Session)
    (hid : ∀ sid s, f sid = some s → s.session_id = sid) :
    ∀ ids : List String, (∀ sid ∈ ids, (f sid).isSome) →
      ((ids.filterMap f).map (fun s => s.session_id)) = ids := by
  intro ids
  induction ids with
  | nil => intro; rfl
  | cons sid t ih =>
    intro h
    have h1 : (f sid).isSome := h sid (List.mem_cons_self sid t)
    obtain ⟨s, hs⟩ := Option.isSome_iff_exists.mp h1
    rw [List.filterMap_cons, hs, List.map_cons, hid sid s hs,
      ih (fun x hx => h x (List.mem_cons_of_mem sid hx))]

/-- Every session id of the input yields a derived session. -/
theorem deriveSession_group_isSome (l : List Interaction) (sid : String)
    (h : sid ∈ sessionIds l) :
    (deriveSession sid (sortEventsByTimestamp (sessionGroup l sid))).isSome := by
  obtain ⟨e, hel, hesid⟩ := by
    simpa [List.mem_map] using (mem_sessionIds l sid).mp h
  have hmem : e ∈ sortEventsByTimestamp (sessionGroup l sid) :=
    (sortEventsByTimestamp_perm _).symm.subset
      ((mem_sessionGroup l sid e).mpr ⟨hel, hesid⟩)
  cases hg : sortEventsByTimestamp (sessionGroup l sid) with
  | nil => rw [hg] at hmem; exact absurd hmem (List.not_mem_nil e)
  | cons f rest =>
    obtain ⟨s, hs⟩ := deriveSession_cons_exists sid f rest
    rw [hs]
    rfl

/-- The streak loop adds at most its fuel to the accumulator. -/
theorem streakGo_le (days : List ℤ) (todayDay : ℤ) :
    ∀ fuel i streak, streakGo days todayDay fuel i streak ≤ streak + fuel := by
  intro fuel
  induction fuel with
  | zero => intro i streak; simp [streakGo]
  | succ fl ih =>
    intro i streak
    simp only [streakGo]
    split_ifs with h1 h2
    · have := ih (i + 1) (streak + 1)
      omega
    · omega
    · have := ih (i + 1) streak
      omega

/-!
The claims.
-/

/-- Claim C1: calculateActiveTime pairs each response-end with the oldest
still-unpaired prompt-start (FIFO). For any two prompt-starts followed by two
response-ends the first response pairs the first prompt and the second the
second; on prompts at minutes 0 and 5 with responses at minutes 10 and 20 the
total is 25 active minutes (10 plus 15), not the LIFO total 20. -/
theorem claim_C1_fifo_pairing :
    (∀ a b c d : ℤ,
      calculateActiveTime [mkPrompt a, mkPrompt b, mkResponse c, mkResponse d] =
        round1 (max 0 ((c - a : ℚ) / 60000) + max 0 ((d - b : ℚ) / 60000)))
    ∧ calculateActiveTime
        [mkPrompt 0, mkPrompt 300000, mkResponse 600000, mkResponse 1200000] = 25
    ∧ calculateActiveTime
        [mkPrompt 0, mkPrompt 300000, mkResponse 600000, mkResponse 1200000] ≠ 20 := by
  have hgen : ∀ a b c d : ℤ,
      calculateActiveTime [mkPrompt a, mkPrompt b, mkResponse c, mkResponse d] =
        round1 (max 0 ((c - a : ℚ) / 60000) + max 0 ((d - b : ℚ) / 60000)) := by
    intro a b c d
    simp [calculateActiveTime, activeGo, mkPrompt, mkResponse]
  refine ⟨hgen, ?_, ?_⟩
  · rw [hgen]
    norm_num [round1, jsRound]
  · rw [hgen]
    norm_num [round1, jsRound]

/-- Claim C2, counterexample: calculateSessions is not invariant under every
permutation of the input. Two single-prompt sessions with the same timestamp
come out in arrival order, so swapping the two input events swaps the two
derived sessions in the output list. -/
theorem claim_C2_counterexample :
    [cexA, cexB].Perm [cexB, cexA] ∧
      calculateSessions [cexA, cexB] ≠ calculateSessions [cexB, cexA] := by
  refine ⟨List.Perm.swap cexB cexA [], fun h => ?_⟩
  exact absurd (congrArg (List.map (fun s => s.session_id)) h) (by decide)

/-- Claim C2, amended: when the event timestamps are pairwise distinct,
calculateSessions returns an identical Session list for every permutation of
the input event list. -/
theorem claim_C2_order_independence (l₁ l₂ : List Interaction)
    (hperm : l₁.Perm l₂)
    (hnd : (l₁.map (fun e => e.timestamp)).Nodup) :
    calculateSessions l₁ = calculateSessions l₂ := by
  have hf : (fun sid => deriveSession sid (sortEventsByTimestamp (sessionGroup l₁ sid)))
      = (fun sid => deriveSession sid (sortEventsByTimestamp (sessionGroup l₂ sid))) :=
    funext fun sid => by rw [sortedGroup_eq l₁ l₂ hperm hnd sid]
  have hids : (sessionIds l₁).Perm (sessionIds l₂) := by
    rw [List.perm_ext_iff_of_nodup (sessionIds_nodup l₁) (sessionIds_nodup l₂)]
    intro sid
    rw [mem_sessionIds, mem_sessionIds, (hperm.map _).mem_iff]
  have hM : ((sessionIds l₁).filterMap
        (fun sid => deriveSession sid (sortEventsByTimestamp (sessionGroup l₁ sid)))).Perm
      ((sessionIds l₂).filterMap
        (fun sid => deriveSession sid (sortEventsByTimestamp (sessionGroup l₂ sid)))) := by
    rw [hf]
    exact hids.filterMap _
  have hpw : ((sessionIds l₁).filterMap
      (fun sid => deriveSession sid (sortEventsByTimestamp (sessionGroup l₁ sid)))).Pairwise
      (fun s t => s.start ≠ t.start) := by
    rw [List.pairwise_filterMap]
    refine List.Pairwise.imp ?_ (sessionIds_nodup l₁)
    intro a b hab s hs t ht heq
    obtain ⟨e₁, he₁l, he₁sid, hs₁⟩ := deriveSession_start_mem l₁ a s (Option.mem_def.mp hs)
    obtain ⟨e₂, he₂l, he₂sid, hs₂⟩ := deriveSession_start_mem l₁ b t (Option.mem_def.mp ht)
    have he : e₁ = e₂ :=
      List.inj_on_of_nodup_map hnd he₁l he₂l (by rw [← hs₁, ← hs₂, heq])
    exact hab (by rw [← he₁sid, ← he₂sid, he])
  have hkeys : (((sessionIds l₁).filterMap
      (fun sid => deriveSession sid (sortEventsByTimestamp (sessionGroup l₁ sid)))).map
      Session.start).Nodup :=
    List.pairwise_map.mpr hpw
  rw [calculateSessions, calculateSessions]
  refine sorted_perm_eq_of_key_nodup Session.start sessionStartDesc
    (fun a b h1 h2 => le_antisymm h2 h1) _ _
    (List.sorted_insertionSort sessionStartDesc _)
    (List.sorted_insertionSort sessionStartDesc _)
    (((List.perm_insertionSort sessionStartDesc _).trans hM).trans
      (List.perm_insertionSort sessionStartDesc _).symm)
    ?_
  exact (((List.perm_insertionSort sessionStartDesc _).map _).nodup_iff).mpr hkeys

/-- Claim C2, witness: the amended theorem at a concrete permutation pair
with distinct timestamps. -/
theorem claim_C2_order_independence_witness :
    calculateSessions [cexA, mkPrompt 60000] = calculateSessions [mkPrompt 60000, cexA] :=
  claim_C2_order_independence [cexA, mkPrompt 60000] [mkPrompt 60000, cexA]
    (by decide) (by decide)

/-- Claim C3: a pair contributes max(0, response minus prompt) minutes, so a
response-end timestamped before its prompt-start contributes exactly 0, no
pair contributes a negative amount, the total is never negative, and the
active minutes of every derived session are never negative. -/
theorem claim_C3_clock_skew_clamp :
    (∀ events : List Interaction, 0 ≤ calculateActiveTime events)
    ∧ (∀ tp tr : ℤ, calculateActiveTime [mkPrompt tp, mkResponse tr] =
        round1 (max 0 ((tr - tp : ℚ) / 60000)))
    ∧ calculateActiveTime [mkPrompt 60000, mkResponse 0] = 0
    ∧ (∀ (sid : String) (events : List Interaction) (s : Session),
        deriveSession sid events = some s → 0 ≤ s.active_minutes) := by
  have hgen : ∀ tp tr : ℤ, calculateActiveTime [mkPrompt tp, mkResponse tr] =
      round1 (max 0 ((tr - tp : ℚ) / 60000)) := by
    intro tp tr
    simp [calculateActiveTime, activeGo, mkPrompt, mkResponse]
  refine ⟨calculateActiveTime_nonneg, hgen, ?_, ?_⟩
  · rw [hgen]
    norm_num [round1, jsRound]
  · intro sid events s h
    rw [deriveSession_active_minutes sid events s h]
    exact calculateActiveTime_nonneg events

/-- Claim C4: every never-matched prompt-start contributes exactly 5 minutes:
a group without response-ends totals 5 minutes per prompt-start, appending
trailing prompt-starts to any group adds exactly 5 minutes each, and a
session derived from a single prompt-start has active_minutes 5 and a null
end. -/
theorem claim_C4_unpaired_default :
    (∀ events : List Interaction,
      (∀ e ∈ events, e.event_type ≠ EventType.responseEnd) →
      calculateActiveTime events =
        5 * (events.filter (fun e => e.event_type == EventType.promptStart)).length)
    ∧ (∀ events ps : List Interaction,
        (∀ e ∈ ps, e.event_type = EventType.promptStart) →
        calculateActiveTime (events ++ ps) =
          calculateActiveTime events + 5 * ps.length)
    ∧ (∀ (sid : String) (t : ℤ), ∃ s, deriveSession sid [mkPrompt t] = some s ∧
        s.active_minutes = 5 ∧ s.«end» = none) := by
  refine ⟨?_, ?_, ?_⟩
  · intro events h
    rw [calculateActiveTime, activeGo_no_response events h 0 []]
    have hc : (0 : ℚ) + DEFAULT_DURATION_MINUTES *
        ((List.length ([] : List Interaction) : ℚ) +
          ((events.filter (fun e => e.event_type == EventType.promptStart)).length : ℚ)) =
        ((5 * (events.filter (fun e => e.event_type == EventType.promptStart)).length : ℤ) : ℚ) := by
      rw [DEFAULT_DURATION_MINUTES]
      push_cast [List.length_nil]
      ring
    rw [hc, round1_intCast]
    push_cast
    ring
  · intro events ps h
    rw [calculateActiveTime, calculateActiveTime,
      activeGo_append_prompts ps h events 0 [],
      show DEFAULT_DURATION_MINUTES * (ps.length : ℚ) = ((5 * ps.length : ℤ) : ℚ) by
        rw [DEFAULT_DURATION_MINUTES]; push_cast; ring,
      round1_add_int]
    push_cast
    ring
  · intro sid t
    refine ⟨_, rfl, ?_, ?_⟩
    · show calculateActiveTime [mkPrompt t] = 5
      norm_num [calculateActiveTime, activeGo, mkPrompt, DEFAULT_DURATION_MINUTES,
        round1, jsRound]
    · simp [deriveSession, mkPrompt]

/-- Claim C5: the streak is 0 for an empty event list; otherwise it walks
backward from the local day of the current instant over the local days with
activity, bounded by 365 iterations; a day with activity increments the
streak, a missing day other than the first tested (today) stops the walk, and
a missing today is skipped without being counted. Concretely, with the clock
inside local day 1000: activity on days 999 and 998 only gives streak 2, and
activity on days 999 and 997 only gives streak 1. -/
theorem claim_C5_streak :
    (∀ tz now : ℤ, calculateStreak [] tz now = 0)
    ∧ (∀ (events : List Interaction) (tz now : ℤ),
        calculateStreak events tz now ≤ 365)
    ∧ (∀ (events : List Interaction) (tz now : ℤ), events ≠ [] →
        calculateStreak events tz now =
          streakGo (events.map fun e => localDay e.timestamp tz)
            (localDay now tz) 365 0 0)
    ∧ calculateStreak [mkPrompt (86400000 * 999 + 1), mkPrompt (86400000 * 998 + 2)]
        0 (86400000 * 1000 + 3600000) = 2
    ∧ calculateStreak [mkPrompt (86400000 * 999 + 1), mkPrompt (86400000 * 997 + 2)]
        0 (86400000 * 1000 + 3600000) = 1 := by
  refine ⟨fun tz now => rfl, ?_, ?_, by decide, by decide⟩
  · intro events tz now
    rw [calculateStreak]
    split_ifs with h
    · omega
    · exact le_trans (streakGo_le _ _ 365 0 0) (by omega)
  · intro events tz now h
    rw [calculateStreak, if_neg (by simp [List.isEmpty_iff, h])]

/-- Claim C6: every entry of the agent-project breakdown lists exactly the
distinct projects in which that agent has at least one session, sorted
strictly alphabetically; the entries are sorted descending by hours; and an
agent appears exactly when it has a session. -/
theorem claim_C6_agent_project_breakdown (sessions : List Session) :
    (calculateAgentProjectBreakdown sessions).Pairwise apsHoursDesc
    ∧ (∀ entry ∈ calculateAgentProjectBreakdown sessions,
        (∀ p, p ∈ entry.projects ↔
          ∃ s ∈ sessions, s.agent = entry.agent ∧ s.project = p)
        ∧ entry.projects.Pairwise (fun a b : String => a < b))
    ∧ (∀ a, (∃ entry ∈ calculateAgentProjectBreakdown sessions, entry.agent = a)
        ↔ ∃ s ∈ sessions, s.agent = a) := by
  refine ⟨List.sorted_insertionSort apsHoursDesc _, ?_, ?_⟩
  · intro entry hmem
    obtain ⟨a, ha, rfl⟩ := List.mem_map.mp
      ((List.perm_insertionSort apsHoursDesc _).subset hmem)
    constructor
    · intro p
      show p ∈ List.insertionSort (fun a b : String => a ≤ b)
          (insertionOrderKeys
            ((sessions.filter (fun s => s.agent == a)).map (fun s => s.project))) ↔ _
      rw [(List.perm_insertionSort _ _).mem_iff, mem_insertionOrderKeys]
      simp only [List.mem_map, List.mem_filter, beq_iff_eq]
      constructor
      · rintro ⟨s, ⟨hsm, hsa⟩, hsp⟩
        exact ⟨s, hsm, hsa, hsp⟩
      · rintro ⟨s, hsm, hsa, hsp⟩
        exact ⟨s, ⟨hsm, hsa⟩, hsp⟩
    · show (List.insertionSort (fun a b : String => a ≤ b)
          (insertionOrderKeys
            ((sessions.filter (fun s => s.agent == a)).map
              (fun s => s.project)))).Pairwise (fun a b : String => a < b)
      refine List.Sorted.lt_of_le (List.sorted_insertionSort _ _) ?_
      exact ((List.perm_insertionSort _ _).nodup_iff).mpr (nodup_insertionOrderKeys _)
  · intro a
    constructor
    · rintro ⟨entry, hmem, hagent⟩
      obtain ⟨b, hb, rfl⟩ := List.mem_map.mp
        ((List.perm_insertionSort apsHoursDesc _).subset hmem)
      obtain ⟨s, hsm, hsa⟩ := by
        simpa [List.mem_map] using (mem_insertionOrderKeys _ b).mp hb
      exact ⟨s, hsm, by rw [hsa]; exact hagent⟩
    · rintro ⟨s, hsm, hsa⟩
      refine ⟨_, ((List.perm_insertionSort apsHoursDesc _).mem_iff).mpr
        (List.mem_map_of_mem _ ((mem_insertionOrderKeys _ a).mpr ?_)), rfl⟩
      rw [← hsa]
      exact List.mem_map_of_mem _ hsm

/-- Claim C7: a response-end reaching an empty prompt queue is dropped
silently: it contributes nothing and leaves the state untouched, so it never
consumes the pairing slot of any later prompt-start. -/
theorem claim_C7_orphan_response (r : Interaction) (rest : List Interaction)
    (h : r.event_type = EventType.responseEnd) :
    (∀ total, activeGo (r :: rest) total [] = activeGo rest total []) ∧
    calculateActiveTime (r :: rest) = calculateActiveTime rest := by
  refine ⟨activeGo_orphan r rest h, ?_⟩
  rw [calculateActiveTime, calculateActiveTime, activeGo_orphan r rest h]

/-- Claim C7, witness: the orphan theorem at a concrete leading response-end
followed by a prompt-start. -/
theorem claim_C7_orphan_response_witness :
    (∀ total, activeGo (mkResponse 0 :: [mkPrompt 60000]) total [] =
      activeGo [mkPrompt 60000] total []) ∧
    calculateActiveTime [mkResponse 0, mkPrompt 60000] =
      calculateActiveTime [mkPrompt 60000] :=
  claim_C7_orphan_response (mkResponse 0) [mkPrompt 60000] rfl

/-- Claim C8: a group holding a session-end event derives a session with
explicit_end true and a non-null end equal to the timestamp of the last event
of the (timestamp-sorted) group. -/
theorem claim_C8_explicit_end (sid : String) (events : List Interaction)
    (hne : events ≠ [])
    (hend : ∃ e ∈ events, e.event_type = EventType.sessionEnd) :
    ∃ s, deriveSession sid events = some s ∧ s.explicit_end = true ∧
      s.«end» = events.getLast?.map (fun e => e.timestamp) := by
  cases events with
  | nil => exact absurd rfl hne
  | cons f rest =>
    have hany : (f :: rest).any (fun e => e.event_type == EventType.sessionEnd) = true := by
      simp only [List.any_eq_true, beq_iff_eq]
      exact hend
    obtain ⟨s, hs⟩ := deriveSession_cons_exists sid f rest
    refine ⟨s, hs, ?_, ?_⟩
    all_goals
      unfold deriveSession at hs
      rw [getLast?_cons_eq_getLast] at hs
      injection hs with hs
      subst hs
      dsimp only
    · exact hany
    · rw [getLast?_cons_eq_getLast]
      simp [hany]

/-- Claim C8, witness: the explicit-end theorem on a group whose last
prompt-start has no paired response. -/
theorem claim_C8_explicit_end_witness :
    ∃ s, deriveSession "s" [mkPrompt 0, mkSessionEnd 60000] = some s ∧
      s.explicit_end = true ∧
      s.«end» = ([mkPrompt 0, mkSessionEnd 60000].getLast?).map (fun e => e.timestamp) :=
  claim_C8_explicit_end "s" [mkPrompt 0, mkSessionEnd 60000] (by decide) (by decide)

/-- Claim C9: a nonempty group with no prompt-start derives a session that is
not active: its end is the (non-null) timestamp of the last event and its
active minutes are 0. -/
theorem claim_C9_no_prompt_inactive (sid : String) (events : List Interaction)
    (hne : events ≠ [])
    (hnp : ∀ e ∈ events, e.event_type ≠ EventType.promptStart) :
    ∃ s, deriveSession sid events = some s ∧
      s.«end» = events.getLast?.map (fun e => e.timestamp) ∧
      s.«end».isSome = true ∧ s.active_minutes = 0 := by
  cases events with
  | nil => exact absurd rfl hne
  | cons f rest =>
    have hfind : (f :: rest).reverse.find?
        (fun e => e.event_type == EventType.promptStart) = none := by
      rw [List.find?_eq_none]
      intro x hx
      simp only [beq_iff_eq]
      exact hnp x (List.mem_reverse.mp hx)
    obtain ⟨s, hs⟩ := deriveSession_cons_exists sid f rest
    refine ⟨s, hs, ?_, ?_, ?_⟩
    all_goals
      unfold deriveSession at hs
      rw [getLast?_cons_eq_getLast] at hs
      injection hs with hs
      subst hs
      dsimp only
    · rw [hfind]
      rw [getLast?_cons_eq_getLast]
      simp
    · rw [hfind]
      simp
    · rw [calculateActiveTime, activeGo_no_prompt _ hnp]
      norm_num [round1, jsRound]

/-- Claim C9, witness: the no-prompt theorem on a group of one response-end
and one session-end. -/
theorem claim_C9_no_prompt_inactive_witness :
    ∃ s, deriveSession "s" [mkResponse 0, mkSessionEnd 60000] = some s ∧
      s.«end» = ([mkResponse 0, mkSessionEnd 60000].getLast?).map (fun e => e.timestamp) ∧
      s.«end».isSome = true ∧ s.active_minutes = 0 :=
  claim_C9_no_prompt_inactive "s" [mkResponse 0, mkSessionEnd 60000]
    (by decide) (by decide)

/-- Claim C10: calculateSessions returns exactly one session per distinct
session id of the input: the returned ids are duplicate-free, an id appears
in the output exactly when it appears in the input, the output length is the
number of distinct input session ids, and total_sessions of the weekly stats
is that length. -/
theorem claim_C10_distinct_session_ids (events : List Interaction) :
    ((calculateSessions events).map (fun s => s.session_id)).Nodup
    ∧ (∀ sid, sid ∈ (calculateSessions events).map (fun s => s.session_id) ↔
        sid ∈ events.map (fun e => e.session_id))
    ∧ (calculateSessions events).length =
        (events.map (fun e => e.session_id)).toFinset.card
    ∧ (∀ weekStart tz now : ℤ,
        (calculateWeeklyStats events weekStart tz now).total_sessions =
          (calculateSessions events).length) := by
  have hmap : (((sessionIds events).filterMap
      (fun sid => deriveSession sid
        (sortEventsByTimestamp (sessionGroup events sid)))).map
      (fun s => s.session_id)) = sessionIds events :=
    map_session_id_filterMap _ (fun sid s hs => deriveSession_session_id sid _ s hs)
      (sessionIds events) (fun sid hsid => deriveSession_group_isSome events sid hsid)
  have hperm_map : ((calculateSessions events).map (fun s => s.session_id)).Perm
      (sessionIds events) := by
    have h2 := (List.perm_insertionSort sessionStartDesc
      ((sessionIds events).filterMap
        (fun sid => deriveSession sid
          (sortEventsByTimestamp (sessionGroup events sid))))).map
      (fun s => s.session_id)
    rw [hmap] at h2
    rw [calculateSessions]
    exact h2
  have hfinset : (sessionIds events).toFinset =
      (events.map (fun e => e.session_id)).toFinset := by
    ext a
    simp only [List.mem_toFinset]
    exact mem_sessionIds events a
  refine ⟨hperm_map.nodup_iff.mpr (sessionIds_nodup events), ?_, ?_, fun _ _ _ => rfl⟩
  · intro sid
    rw [hperm_map.mem_iff, mem_sessionIds]
  · rw [← hfinset, List.toFinset_card_of_nodup (sessionIds_nodup events),
      ← hperm_map.length_eq, List.length_map]
